import Mathlib

/-!
Verification of the conversation-context manager and request/response
pipeline of the Telegram/Gemini relay bot (`src/telegramm bot/bot.py`).

The Python source is shallowly embedded: the per-user context dictionary
becomes an association list threaded explicitly through every operation,
bytes become `List Nat`, optional Python arguments become `Option`, Python
truthiness of strings/lists is rendered by explicit emptiness tests, and the
outcome of the one blocking HTTP call (`requests.post`) is an explicit
parameter of `call_gemini_api`.
-/

namespace Bot

/-- One content part of a structured message, mirroring the dictionaries
built by `GeminiBot.prepare_message_content` (`{"type": "text", ...}` or
`{"type": "image_url", ...}`). -/
inductive ContentPart where
  | textPart (text : String)
  | imagePart (url : String)
deriving DecidableEq, Repr

/-- The `content` field of a stored message: the user turn stores the list of
content parts, the assistant turn stores the plain response string. -/
inductive MsgContent where
  | parts (l : List ContentPart)
  | str (s : String)
deriving DecidableEq, Repr

/-- A conversation turn as appended by `GeminiBot.add_to_context`:
`{"role": role, "content": content}`. -/
structure Message where
  role : String
  content : MsgContent
deriving DecidableEq, Repr

/-- The `self.user_contexts` dictionary: user id -> list of turns.  A Python
dict keeps insertion order, so it is embedded as an association list where a
fresh key is appended at the end. -/
abbrev Store := List (Nat × List Message)

/-- Constant `self.max_context_length = 10`. -/
def max_context_length : Nat := 10

/-- Dictionary lookup `self.user_contexts[user_id]` / membership test. -/
def lookupCtx : Store → Nat → Option (List Message)
  | [], _ => none
  | (k, v) :: rest, uid => if k = uid then some v else lookupCtx rest uid

/-- Dictionary assignment `self.user_contexts[user_id] = v`: replaces the
value when the key is present, otherwise appends a new entry at the end. -/
def updateCtx : Store → Nat → List Message → Store
  | [], uid, v => [(uid, v)]
  | (k, w) :: rest, uid, v =>
      if k = uid then (uid, v) :: rest else (k, w) :: updateCtx rest uid v

/-- Embeds `GeminiBot.get_user_context`: create an empty entry when the user is
absent, then return the list of that user.  Returns both the list and the
(possibly extended) store. -/
def get_user_context (s : Store) (uid : Nat) : List Message × Store :=
  match lookupCtx s uid with
  | some h => (h, s)
  | none => ([], updateCtx s uid [])

/-- The list-level effect of `GeminiBot.add_to_context` on the history of
one user: `context.append(...)` followed by `context.pop(0)` when the length
exceeds `max_context_length * 2`. -/
def appendTurn (h : List Message) (m : Message) : List Message :=
  let h1 := h ++ [m]
  if h1.length > max_context_length * 2 then h1.drop 1 else h1

/-- Embeds `GeminiBot.add_to_context`: fetch (creating if needed), append the turn,
trim, and store back.  In Python the stored list is mutated in place; the
functional rendering writes the final list back under the same key. -/
def add_to_context (s : Store) (uid : Nat) (role : String) (content : MsgContent) : Store :=
  let g := get_user_context s uid
  updateCtx g.2 uid (appendTurn g.1 ⟨role, content⟩)

/-- Embeds `GeminiBot.clear_context`: reset to `[]` only when the user has an
entry (`if user_id in self.user_contexts`). -/
def clear_context (s : Store) (uid : Nat) : Store :=
  if (lookupCtx s uid).isSome then updateCtx s uid [] else s

/-- The history the store associates to a user (empty when absent). -/
def historyOf (s : Store) (uid : Nat) : List Message :=
  (lookupCtx s uid).getD []

/-- A Context Store operation, as in the public contract of the store. -/
inductive CtxOp where
  | get (uid : Nat)
  | append (uid : Nat) (role : String) (content : MsgContent)
  | clear (uid : Nat)

/-- Apply one Context Store operation to the store. -/
def applyOp (s : Store) : CtxOp → Store
  | .get uid => (get_user_context s uid).2
  | .append uid r c => add_to_context s uid r c
  | .clear uid => clear_context s uid

/-- Run a sequence of Context Store operations from the empty store
(`self.user_contexts = {}`). -/
def runOps (ops : List CtxOp) : Store :=
  ops.foldl applyOp []

/-! ### Content Encoder -/

/-- Constant `SUPPORTED_IMAGE_TYPES` from the source (declared, never
consulted). -/
def SUPPORTED_IMAGE_TYPES : List String :=
  ["image/jpeg", "image/png", "image/gif", "image/webp"]

/-- Constant `SUPPORTED_DOCUMENT_TYPES` from the source. -/
def SUPPORTED_DOCUMENT_TYPES : List String :=
  ["text/plain", "application/pdf", "application/json",
   "text/csv", "application/msword", "text/html"]

/-- The standard base64 alphabet used by `base64.b64encode`. -/
def b64Char (n : Nat) : Char :=
  ("ABCDEFGHIJKLMNOPQRSTUVWXYZabcdefghijklmnopqrstuvwxyz0123456789+/".data).getD n
    (Char.ofNat 65)

/-- Embeds `base64.b64encode` on a byte list: 3-byte groups become 4 alphabet
characters, with `=` padding for a trailing 1- or 2-byte group. -/
def base64Encode : List Nat → List Char
  | [] => []
  | [a] =>
      [b64Char (a / 4), b64Char (a % 4 * 16), Char.ofNat 61, Char.ofNat 61]
  | [a, b] =>
      [b64Char (a / 4), b64Char (a % 4 * 16 + b / 16), b64Char (b % 16 * 4),
       Char.ofNat 61]
  | a :: b :: c :: rest =>
      b64Char (a / 4) :: b64Char (a % 4 * 16 + b / 16) ::
      b64Char (b % 16 * 4 + c / 64) :: b64Char (c % 64) :: base64Encode rest

/-- Embeds `GeminiBot.encode_file_to_base64`: data URI from MIME type and base64
payload.  `b64encode` and the ASCII decode cannot fail on a byte string, so
the `except` branch (returning `None`) is unreachable; the `Option` mirrors
the Python signature. -/
def encode_file_to_base64 (file_content : List Nat) (mime_type : String) : Option String :=
  some ("data:" ++ mime_type ++ ";base64," ++ (base64Encode file_content).asString)

/-- True for a UTF-8 continuation byte (0x80-0xBF). -/
def isCont (b : Nat) : Bool := 128 ≤ b && b ≤ 191

/-- UTF-8 decoding as CPython `bytes.decode(utf-8, errors=...)` performs
it: well-formed scalar sequences (no overlong forms, no surrogates, at most
U+10FFFF) decode to their scalar; each maximal subpart of an ill-formed
sequence is one error event, replaced by `err` (empty list for
`errors=ignore`, `[U+FFFD]` for `errors=replace`).  The `fuel`
parameter only drives structural recursion; every step consumes at least
one byte, so `fuel = l.length` (as `utf8DecodeWith` passes) never runs
out. -/
def utf8DecodeFuel (err : List Char) : Nat → List Nat → List Char
  | 0, _ => []
  | _ + 1, [] => []
  | fuel + 1, b :: rest =>
    if b < 128 then Char.ofNat b :: utf8DecodeFuel err fuel rest
    else if b < 194 then err ++ utf8DecodeFuel err fuel rest
    else if b ≤ 223 then
      match rest with
      | [] => err
      | b2 :: rest2 =>
        if isCont b2 then
          Char.ofNat ((b - 192) * 64 + (b2 - 128)) :: utf8DecodeFuel err fuel rest2
        else err ++ utf8DecodeFuel err fuel (b2 :: rest2)
    else if b ≤ 239 then
      match rest with
      | [] => err
      | b2 :: rest2 =>
        if (if b = 224 then 160 else 128) ≤ b2 ∧ b2 ≤ (if b = 237 then 159 else 191) then
          match rest2 with
          | [] => err
          | b3 :: rest3 =>
            if isCont b3 then
              Char.ofNat ((b - 224) * 4096 + (b2 - 128) * 64 + (b3 - 128)) ::
                utf8DecodeFuel err fuel rest3
            else err ++ utf8DecodeFuel err fuel (b3 :: rest3)
        else err ++ utf8DecodeFuel err fuel (b2 :: rest2)
    else if b ≤ 244 then
      match rest with
      | [] => err
      | b2 :: rest2 =>
        if (if b = 240 then 144 else 128) ≤ b2 ∧ b2 ≤ (if b = 244 then 143 else 191) then
          match rest2 with
          | [] => err
          | b3 :: rest3 =>
            if isCont b3 then
              match rest3 with
              | [] => err
              | b4 :: rest4 =>
                if isCont b4 then
                  Char.ofNat ((b - 240) * 262144 + (b2 - 128) * 4096 +
                    (b3 - 128) * 64 + (b4 - 128)) :: utf8DecodeFuel err fuel rest4
                else err ++ utf8DecodeFuel err fuel (b4 :: rest4)
            else err ++ utf8DecodeFuel err fuel (b3 :: rest3)
        else err ++ utf8DecodeFuel err fuel (b2 :: rest2)
    else err ++ utf8DecodeFuel err fuel rest

/-- UTF-8 decode of a byte list with the given per-error replacement. -/
def utf8DecodeWith (err : List Char) (l : List Nat) : List Char :=
  utf8DecodeFuel err l.length l

/-- Embeds `file_data.decode(utf-8, errors=ignore)`: undecodable subparts
are dropped. -/
def utf8DecodeIgnoreBytes (l : List Nat) : String :=
  (utf8DecodeWith [] l).asString

/-- Embeds `bytes.decode(utf-8, errors=replace)`: undecodable subparts
become U+FFFD. -/
def utf8DecodeReplaceBytes (l : List Nat) : String :=
  (utf8DecodeWith [Char.ofNat 65533] l).asString

/-- Python `s.startswith(p)`, as a character-list prefix test. -/
def strStartsWith (s p : String) : Bool :=
  p.data.isPrefixOf s.data

/-- Python string slice `s[:n]`: the first `n` characters. -/
def takeChars (s : String) (n : Nat) : String :=
  String.mk (s.data.take n)

/-- Python `a or b` on an optional string `a`: the string when it is present
and non-empty, otherwise `b`. -/
def orElseStr (a : Option String) (b : String) : String :=
  match a with
  | some t => if t = "" then b else t
  | none => b

/-- Embeds `GeminiBot.prepare_message_content`: the text part (when `text` is
truthy), then the file-derived part (when both `file_data` and `mime_type`
are truthy): an image part for `image/*`, otherwise a text part built from
the PDF size notice or the UTF-8 (errors ignored) decode truncated to 4000
characters; falls back to `text or "Привет!"` when nothing was produced.
The inner `try` cannot raise: neither `decode(errors=ignore)` nor `len`
throws, so the failure text part is unreachable. -/
def prepare_message_content (text : Option String) (file_data : Option (List Nat))
    (mime_type : Option String) : List ContentPart :=
  let textParts : List ContentPart :=
    match text with
    | some t => if t = "" then [] else [ContentPart.textPart t]
    | none => []
  let fileParts : List ContentPart :=
    match file_data, mime_type with
    | some fd, some mt =>
      if fd = [] ∨ mt = "" then []
      else if strStartsWith mt "image/" then
        match encode_file_to_base64 fd mt with
        | some url => if url = "" then [] else [ContentPart.imagePart url]
        | none => []
      else
        let text_content : String :=
          if mt = "application/pdf" then
            "[PDF файл получен, но текст не может быть извлечен автоматически. Размер: "
              ++ toString fd.length ++ " байт]"
          else utf8DecodeIgnoreBytes fd
        [ContentPart.textPart ("Содержимое файла (" ++ mt ++ "):\n\n"
            ++ takeChars text_content 4000 ++ "...")]
    | _, _ => []
  let content := textParts ++ fileParts
  if content = [] then [ContentPart.textPart (orElseStr text "Привет!")] else content

/-- The Content Encoder as the spec describes it.  It differs from
`prepare_message_content` in one point: the spec says a non-image, non-PDF
file is decoded as UTF-8 "replacing undecodable bytes rather than failing",
where the source passes `errors=ignore`, which drops them. -/
def prepare_message_content_spec (text : Option String) (file_data : Option (List Nat))
    (mime_type : Option String) : List ContentPart :=
  let textParts : List ContentPart :=
    match text with
    | some t => if t = "" then [] else [ContentPart.textPart t]
    | none => []
  let fileParts : List ContentPart :=
    match file_data, mime_type with
    | some fd, some mt =>
      if fd = [] ∨ mt = "" then []
      else if strStartsWith mt "image/" then
        match encode_file_to_base64 fd mt with
        | some url => if url = "" then [] else [ContentPart.imagePart url]
        | none => []
      else
        let text_content : String :=
          if mt = "application/pdf" then
            "[PDF файл получен, но текст не может быть извлечен автоматически. Размер: "
              ++ toString fd.length ++ " байт]"
          else utf8DecodeReplaceBytes fd
        [ContentPart.textPart ("Содержимое файла (" ++ mt ++ "):\n\n"
            ++ takeChars text_content 4000 ++ "...")]
    | _, _ => []
  let content := textParts ++ fileParts
  if content = [] then [ContentPart.textPart (orElseStr text "Привет!")] else content

/-! ### Completion Client -/

/-- The outcome of the one blocking call `requests.post(...)` plus the
subsequent parsing `response.json()[choices][0][message][content]`.
`response status body extracted` is an HTTP response; `extracted` is the
parse result of the body (`Except.error` carries the description of the
exception the parsing raised).  The remaining constructors are the
exceptions `requests.post` can raise: `requests.exceptions.Timeout`,
`requests.exceptions.ConnectionError`, and any other `Exception` (carrying
`str(e)`). -/
inductive ApiOutcome where
  | response (status : Nat) (body : String) (extracted : Except String String)
  | timeout
  | connError
  | otherExc (msg : String)

/-- True when `status_code == 200` with a successfully extracted content
string. -/
def isSuccessOutcome : ApiOutcome → Bool
  | .response status _ (.ok _) => status == 200
  | _ => false

/-- Embeds `GeminiBot.call_gemini_api`: read the context of the user
(creating the entry
when absent), encode the message, issue the request, and dispatch on the
outcome.  The request body uses `context.copy()`, so building it never
mutates the store.  On 200 with parseable content the user turn and the
assistant turn are appended and the content returned; every other path
returns an error string and leaves the store as it was after the context
read. -/
def call_gemini_api (s : Store) (uid : Nat) (text : Option String)
    (file_data : Option (List Nat)) (mime_type : Option String)
    (outcome : ApiOutcome) : String × Store :=
  let g := get_user_context s uid
  let message_content := prepare_message_content text file_data mime_type
  match outcome with
  | .response status body extracted =>
    if status = 200 then
      match extracted with
      | .ok ai_response =>
          let s2 := add_to_context g.2 uid "user" (MsgContent.parts message_content)
          let s3 := add_to_context s2 uid "assistant" (MsgContent.str ai_response)
          (ai_response, s3)
      | .error e => ("❌ Произошла ошибка: " ++ e, g.2)
    else ("❌ Ошибка API: " ++ toString status ++ "\n" ++ body, g.2)
  | .timeout => ("⏰ Превышено время ожидания. Попробуйте еще раз.", g.2)
  | .connError => ("🌐 Ошибка подключения к API. Проверьте интернет.", g.2)
  | .otherExc e => ("❌ Произошла ошибка: " ++ e, g.2)

/-- The user-facing string `call_gemini_api` produces for each outcome. -/
def apiResultMessage : ApiOutcome → String
  | .response status body extracted =>
    if status = 200 then
      match extracted with
      | .ok ai_response => ai_response
      | .error e => "❌ Произошла ошибка: " ++ e
    else "❌ Ошибка API: " ++ toString status ++ "\n" ++ body
  | .timeout => "⏰ Превышено время ожидания. Попробуйте еще раз."
  | .connError => "🌐 Ошибка подключения к API. Проверьте интернет."
  | .otherExc e => "❌ Произошла ошибка: " ++ e

/-! ### Relay (response chunking) -/

/-- The chunk list produced by `for i in range(0, len(response), 4096):
response[i:i+4096]`. -/
def splitChunks (l : List Char) : List (List Char) :=
  if h : l = [] then []
  else l.take 4096 :: splitChunks (l.drop 4096)
termination_by l.length
decreasing_by
  simp only [List.length_drop]
  have := List.length_pos.mpr h
  omega

/-- The messages the handlers send for a response string: one message when
the length is at most 4096, otherwise the consecutive 4096-character
slices. -/
def sentMessages (response : String) : List String :=
  if response.length > 4096 then (splitChunks response.data).map List.asString
  else [response]

/-- Embeds `text_handler`: call the Completion Client on the message text and relay
the response in chunks. -/
def text_handler (s : Store) (uid : Nat) (text : String) (outcome : ApiOutcome) :
    List String × Store :=
  let r := call_gemini_api s uid (some text) none none outcome
  (sentMessages r.1, r.2)

/-! ### Dispatch Router: document updates -/

/-- The data of an inbound document update that `document_handler` reads:
the platform file size, the reported MIME type of the document, the result of
`mimetypes.guess_type(file_name)[0]`, the file name, and the caption. -/
structure DocMsg where
  from_user : Nat
  file_size : Nat
  mime_type : Option String
  guessed_mime : Option String
  file_name : String
  caption : Option String
deriving DecidableEq, Repr

/-- What a run of `document_handler` did: the chat messages it sent, whether
it called the Completion Client, whether it downloaded the file, and the
resulting store. -/
structure DocResult where
  messages : List String
  apiCalled : Bool
  downloadAttempted : Bool
  store : Store
deriving DecidableEq, Repr

/-- Embeds `message.document.mime_type or mimetypes.guess_type(...)[0]`,
followed
by the `if not mime_type` test: `some` exactly when a truthy (non-empty)
MIME type was resolved. -/
def resolveMime (m : DocMsg) : Option String :=
  let r := match m.mime_type with
    | some t => if t = "" then m.guessed_mime else some t
    | none => m.guessed_mime
  match r with
  | some t => if t = "" then none else some t
  | none => none

/-- Embeds `document_handler`: reject when the file exceeds 20 MiB (before any
download), when no MIME type resolves, or when the resolved type is neither
in `SUPPORTED_DOCUMENT_TYPES` nor `text/*`; otherwise download, build the
prompt from the caption or the default, call the Completion Client and relay
the response in chunks.  `file_data` stands for the bytes
`bot.download_file` would return; `outcome` for the HTTP interaction. -/
def document_handler (s : Store) (m : DocMsg) (file_data : List Nat)
    (outcome : ApiOutcome) : DocResult :=
  if m.file_size > 20 * 1024 * 1024 then
    { messages := ["❌ Файл слишком большой. Максимум 20MB."],
      apiCalled := false, downloadAttempted := false, store := s }
  else
    match resolveMime m with
    | none =>
        { messages := ["❌ Не удалось определить тип файла."],
          apiCalled := false, downloadAttempted := false, store := s }
    | some mt =>
        if ¬ SUPPORTED_DOCUMENT_TYPES.contains mt ∧ ¬ strStartsWith mt "text/" then
          { messages := ["❌ Тип файла не поддерживается.\n\n**Поддерживаемые форматы:**\n"
              ++ String.intercalate ", " SUPPORTED_DOCUMENT_TYPES],
            apiCalled := false, downloadAttempted := false, store := s }
        else
          let caption := orElseStr m.caption
            ("Проанализируй содержимое файла " ++ m.file_name)
          let r := call_gemini_api s m.from_user (some caption) (some file_data)
            (some mt) outcome
          { messages := sentMessages r.1, apiCalled := true,
            downloadAttempted := true, store := r.2 }

/-- The reject conditions of `document_handler`, as the spec lists them. -/
def docRejected (m : DocMsg) : Prop :=
  20 * 1024 * 1024 < m.file_size ∨ resolveMime m = none ∨
    ∃ mt, resolveMime m = some mt ∧ SUPPORTED_DOCUMENT_TYPES.contains mt = false ∧
      strStartsWith mt "text/" = false

/-! ### Association-list lemmas -/

theorem lookup_update_self (s : Store) (uid : Nat) (v : List Message) :
    lookupCtx (updateCtx s uid v) uid = some v := by
  induction s with
  | nil => simp [updateCtx, lookupCtx]
  | cons kv rest ih =>
      obtain ⟨k, w⟩ := kv
      by_cases hk : k = uid
      · simp [updateCtx, hk, lookupCtx]
      · simp [updateCtx, hk, lookupCtx, ih]

theorem lookup_update_ne (s : Store) (uid x : Nat) (v : List Message) (hx : x ≠ uid) :
    lookupCtx (updateCtx s uid v) x = lookupCtx s x := by
  induction s with
  | nil => simp [updateCtx, lookupCtx, Ne.symm hx]
  | cons kv rest ih =>
      obtain ⟨k, w⟩ := kv
      by_cases hk : k = uid
      · subst hk
        simp [updateCtx, lookupCtx, Ne.symm hx]
      · simp [updateCtx, hk, lookupCtx, ih]

theorem get_of_lookup_some {s : Store} {uid : Nat} {h : List Message}
    (hl : lookupCtx s uid = some h) : get_user_context s uid = (h, s) := by
  simp [get_user_context, hl]

theorem get_of_lookup_none {s : Store} {uid : Nat}
    (hl : lookupCtx s uid = none) : get_user_context s uid = ([], updateCtx s uid []) := by
  simp [get_user_context, hl]

theorem historyOf_get_snd (s : Store) (uid x : Nat) :
    historyOf ((get_user_context s uid).2) x = historyOf s x := by
  cases hl : lookupCtx s uid with
  | some h => simp [get_user_context, hl]
  | none =>
      by_cases hx : x = uid
      · subst hx
        simp [get_user_context, hl, historyOf, lookup_update_self]
      · simp [get_user_context, hl, historyOf, lookup_update_ne _ _ _ _ hx]

theorem lookup_add_self (s : Store) (uid : Nat) (r : String) (c : MsgContent) :
    lookupCtx (add_to_context s uid r c) uid
      = some (appendTurn (historyOf s uid) ⟨r, c⟩) := by
  cases hl : lookupCtx s uid with
  | some h =>
      simp [add_to_context, get_user_context, hl, historyOf, lookup_update_self]
  | none =>
      simp [add_to_context, get_user_context, hl, historyOf, lookup_update_self]

theorem lookup_add_ne (s : Store) (uid x : Nat) (r : String) (c : MsgContent)
    (hx : x ≠ uid) :
    lookupCtx (add_to_context s uid r c) x = lookupCtx s x := by
  cases hl : lookupCtx s uid with
  | some h =>
      simp [add_to_context, get_user_context, hl, lookup_update_ne _ _ _ _ hx]
  | none =>
      simp [add_to_context, get_user_context, hl, lookup_update_ne _ _ _ _ hx]

theorem appendTurn_length_le {h : List Message} (m : Message)
    (hh : h.length ≤ max_context_length * 2) :
    (appendTurn h m).length ≤ max_context_length * 2 := by
  simp only [appendTurn]
  split <;> rename_i hc <;>
    simp only [gt_iff_lt, not_lt, List.length_drop, List.length_append,
      List.length_cons, List.length_nil] at hc ⊢ <;> omega

theorem appendTurn_of_le {h : List Message} (m : Message)
    (hh : h.length + 1 ≤ max_context_length * 2) :
    appendTurn h m = h ++ [m] := by
  simp only [appendTurn]
  split
  · rename_i hc
    exfalso
    simp only [gt_iff_lt, List.length_append, List.length_cons, List.length_nil] at hc
    omega
  · rfl

theorem historyOf_clear_self (s : Store) (uid : Nat) :
    historyOf (clear_context s uid) uid = [] := by
  cases hl : lookupCtx s uid with
  | some h => simp [clear_context, hl, historyOf, lookup_update_self]
  | none => simp [clear_context, hl, historyOf]

theorem lookup_clear_ne (s : Store) (uid x : Nat) (hx : x ≠ uid) :
    lookupCtx (clear_context s uid) x = lookupCtx s x := by
  cases hl : lookupCtx s uid with
  | some h => simp [clear_context, hl, lookup_update_ne _ _ _ _ hx]
  | none => simp [clear_context, hl]

/-! ### The length invariant -/

/-- The bound the Context Store maintains on the history of every user. -/
def Inv (s : Store) : Prop :=
  ∀ uid, (historyOf s uid).length ≤ max_context_length * 2

theorem inv_empty : Inv [] := by
  intro uid
  simp [historyOf, lookupCtx]

theorem inv_applyOp {s : Store} (hs : Inv s) (op : CtxOp) : Inv (applyOp s op) := by
  cases op with
  | get uid =>
      intro x
      simpa [applyOp, historyOf_get_snd] using hs x
  | append uid r c =>
      intro x
      by_cases hx : x = uid
      · subst hx
        simp only [applyOp, historyOf, lookup_add_self, Option.getD_some]
        exact appendTurn_length_le _ (hs x)
      · simpa [applyOp, historyOf, lookup_add_ne _ _ _ _ _ hx] using hs x
  | clear uid =>
      intro x
      by_cases hx : x = uid
      · subst hx
        simp [applyOp, historyOf_clear_self]
      · simpa [applyOp, historyOf, lookup_clear_ne _ _ _ hx] using hs x

theorem inv_foldl (ops : List CtxOp) :
    ∀ s : Store, Inv s → Inv (ops.foldl applyOp s) := by
  induction ops with
  | nil => intro s hs; simpa using hs
  | cons op rest ih =>
      intro s hs
      exact ih _ (inv_applyOp hs op)

/-- C1: after any finite sequence of Context Store operations (get, append,
clear) run from the empty store, the history of every user has length at most
`2 * max_context_length`; `add_to_context` pushes one turn and drops the
oldest one when the bound is exceeded, which keeps the bound. -/
theorem context_length_invariant (ops : List CtxOp) (uid : Nat) :
    (historyOf (runOps ops) uid).length ≤ 2 * max_context_length := by
  have := inv_foldl ops [] inv_empty uid
  simpa [runOps, Nat.mul_comm] using this

/-- C8: clearing the history of a user and then reading it yields the empty
sequence, for every prior store state. -/
theorem clear_then_get_empty (s : Store) (uid : Nat) :
    (get_user_context (clear_context s uid) uid).1 = [] := by
  cases hl : lookupCtx s uid with
  | some h =>
      simp [clear_context, hl, get_user_context, lookup_update_self]
  | none =>
      simp [clear_context, hl, get_user_context]

/-- C2: when the completion call ends in any failure outcome (status other
than 200, timeout, connection error, or any other exception, including a 200
whose body does not parse), the store after the call is exactly the store
before it, so the existing history of the user is unchanged turn for turn. -/
theorem failed_call_preserves_store (s : Store) (uid : Nat) (text : Option String)
    (fd : Option (List Nat)) (mime : Option String) (outcome : ApiOutcome)
    (h : List Message) (hl : lookupCtx s uid = some h)
    (hfail : isSuccessOutcome outcome = false) :
    (call_gemini_api s uid text fd mime outcome).2 = s ∧
    lookupCtx (call_gemini_api s uid text fd mime outcome).2 uid = some h := by
  have hg : get_user_context s uid = (h, s) := get_of_lookup_some hl
  have hst : (call_gemini_api s uid text fd mime outcome).2 = s := by
    cases outcome with
    | response status body extracted =>
        by_cases hs200 : status = 200
        · cases extracted with
          | ok ai =>
              exfalso
              subst hs200
              simp [isSuccessOutcome] at hfail
          | error e => simp [call_gemini_api, hg, hs200]
        · simp [call_gemini_api, hg, hs200]
    | timeout => simp [call_gemini_api, hg]
    | connError => simp [call_gemini_api, hg]
    | otherExc e => simp [call_gemini_api, hg]
  exact ⟨hst, by rw [hst]; exact hl⟩

theorem failed_call_preserves_store_witness :
    lookupCtx [(7, [⟨"user", MsgContent.str "x"⟩])] 7 = some [⟨"user", MsgContent.str "x"⟩] ∧
    isSuccessOutcome ApiOutcome.timeout = false ∧
    (call_gemini_api [(7, [⟨"user", MsgContent.str "x"⟩])] 7 (some "hi") none none
      ApiOutcome.timeout).2 = [(7, [⟨"user", MsgContent.str "x"⟩])] :=
  ⟨by decide, rfl,
   (failed_call_preserves_store [(7, [⟨"user", MsgContent.str "x"⟩])] 7 (some "hi") none none
     ApiOutcome.timeout [⟨"user", MsgContent.str "x"⟩] (by decide) rfl).1⟩

/-- C3: for every user, a successful completion call (HTTP 200 with
parseable content) returns the extracted text and performs exactly the two
appends on that history, the user turn carrying the encoded content first
and the assistant turn second; when the trim bound is not hit the new
history is literally the prior history (empty for a new user) plus those
two turns in order. -/
theorem successful_call_appends_two_turns (s : Store) (uid : Nat) (text : Option String)
    (fd : Option (List Nat)) (mime : Option String) (body ai : String) :
    (call_gemini_api s uid text fd mime (ApiOutcome.response 200 body (Except.ok ai))).1
      = ai ∧
    lookupCtx (call_gemini_api s uid text fd mime
        (ApiOutcome.response 200 body (Except.ok ai))).2 uid
      = some (appendTurn
          (appendTurn (historyOf s uid)
            ⟨"user", MsgContent.parts (prepare_message_content text fd mime)⟩)
          ⟨"assistant", MsgContent.str ai⟩) ∧
    ((historyOf s uid).length + 2 ≤ max_context_length * 2 →
      lookupCtx (call_gemini_api s uid text fd mime
          (ApiOutcome.response 200 body (Except.ok ai))).2 uid
        = some (historyOf s uid
            ++ [⟨"user", MsgContent.parts (prepare_message_content text fd mime)⟩,
              ⟨"assistant", MsgContent.str ai⟩])) := by
  have hcall : call_gemini_api s uid text fd mime (ApiOutcome.response 200 body (Except.ok ai))
      = (ai, add_to_context
          (add_to_context (get_user_context s uid).2 uid "user"
            (MsgContent.parts (prepare_message_content text fd mime)))
          uid "assistant" (MsgContent.str ai)) := by
    simp [call_gemini_api]
  have h1 : lookupCtx
      (add_to_context (get_user_context s uid).2 uid "user"
        (MsgContent.parts (prepare_message_content text fd mime))) uid
      = some (appendTurn (historyOf s uid)
          ⟨"user", MsgContent.parts (prepare_message_content text fd mime)⟩) := by
    rw [lookup_add_self, historyOf_get_snd]
  have h2 : lookupCtx (call_gemini_api s uid text fd mime
      (ApiOutcome.response 200 body (Except.ok ai))).2 uid
      = some (appendTurn
          (appendTurn (historyOf s uid)
            ⟨"user", MsgContent.parts (prepare_message_content text fd mime)⟩)
          ⟨"assistant", MsgContent.str ai⟩) := by
    rw [hcall]
    rw [lookup_add_self]
    simp [historyOf, h1]
  refine ⟨by rw [hcall], h2, fun hle => ?_⟩
  rw [h2]
  have e1 : appendTurn (historyOf s uid)
        ⟨"user", MsgContent.parts (prepare_message_content text fd mime)⟩
      = historyOf s uid
          ++ [⟨"user", MsgContent.parts (prepare_message_content text fd mime)⟩] :=
    appendTurn_of_le _ (by omega)
  rw [e1]
  have e2 : appendTurn
        (historyOf s uid
          ++ [⟨"user", MsgContent.parts (prepare_message_content text fd mime)⟩])
        ⟨"assistant", MsgContent.str ai⟩
      = (historyOf s uid
          ++ [⟨"user", MsgContent.parts (prepare_message_content text fd mime)⟩])
          ++ [⟨"assistant", MsgContent.str ai⟩] :=
    appendTurn_of_le _ (by
      simp only [List.length_append, List.length_cons, List.length_nil]
      omega)
  rw [e2]
  simp

theorem successful_call_appends_two_turns_witness :
    (call_gemini_api [] 5 (some "hi") none none
        (ApiOutcome.response 200 "b" (Except.ok "ok"))).1 = "ok" ∧
    (historyOf ([] : Store) 5).length + 2 ≤ max_context_length * 2 ∧
    lookupCtx (call_gemini_api [] 5 (some "hi") none none
        (ApiOutcome.response 200 "b" (Except.ok "ok"))).2 5
      = some [⟨"user", MsgContent.parts [ContentPart.textPart "hi"]⟩,
          ⟨"assistant", MsgContent.str "ok"⟩] := by
  have hp := successful_call_appends_two_turns [] 5 (some "hi") none none "b" "ok"
  refine ⟨hp.1, by decide, ?_⟩
  exact (hp.2.2 (by decide)).trans (by decide)

/-- C4: for every input and every outcome of the HTTP interaction (success,
non-200 status, unparseable 200 body, timeout, connection error, other
exception) the Completion Client returns the plain user-facing string
classified by `apiResultMessage`; the embedded function is total, so no
outcome escapes as an exception. -/
theorem call_always_returns_message (s : Store) (uid : Nat) (text : Option String)
    (fd : Option (List Nat)) (mime : Option String) (outcome : ApiOutcome) :
    (call_gemini_api s uid text fd mime outcome).1 = apiResultMessage outcome := by
  cases outcome with
  | response status body extracted =>
      by_cases hs200 : status = 200
      · cases extracted <;> simp [call_gemini_api, apiResultMessage, hs200]
      · simp [call_gemini_api, apiResultMessage, hs200]
  | timeout => rfl
  | connError => rfl
  | otherExc e => rfl

/-- C9: a payload with no text and no file encodes to exactly the default
greeting text part. -/
theorem empty_payload_default_greeting :
    prepare_message_content none none none = [ContentPart.textPart "Привет!"] := by
  rfl

/-- C10: when file bytes are given but the MIME type is absent (None or the
empty string), no file-derived part is produced: the output is the sole text
part when a non-empty text is supplied, otherwise the default greeting. -/
theorem file_without_mime_ignored (text : Option String) (fd : List Nat)
    (mime : Option String) (hm : mime = none ∨ mime = some "") :
    prepare_message_content text (some fd) mime
      = match text with
        | some t => if t = "" then [ContentPart.textPart "Привет!"]
            else [ContentPart.textPart t]
        | none => [ContentPart.textPart "Привет!"] := by
  rcases hm with hm | hm <;> subst hm <;>
    cases text with
    | none => simp [prepare_message_content, orElseStr]
    | some t =>
        by_cases ht : t = "" <;> simp [prepare_message_content, orElseStr, ht]

theorem file_without_mime_ignored_witness :
    prepare_message_content none (some [1, 2, 3]) none = [ContentPart.textPart "Привет!"] :=
  file_without_mime_ignored none [1, 2, 3] none (Or.inl rfl)

/-- C6 counterexample: on the file bytes `[0xFF]` (not valid UTF-8) with a
non-image, non-PDF MIME type, the `errors=ignore` decode of the source drops
the byte while the spec-described replacing decode yields
U+FFFD, so the encoder differs from the spec-described encoder. -/
theorem encoder_replace_decode_counterexample :
    prepare_message_content none (some [255]) (some "text/plain")
      ≠ prepare_message_content_spec none (some [255]) (some "text/plain") := by
  decide

/-- C6 amended: for a non-empty file whose MIME type is truthy, not an image
type and not `application/pdf`, the encoder decodes the bytes as UTF-8
dropping (not replacing) undecodable subparts, truncates the decoded text to
its first 4000 characters, and emits a text part of the fixed label
(containing the MIME type) followed by that truncated content (and a
trailing ellipsis); for valid UTF-8 input the content is exactly the first
4000 characters of the decoded text. -/
theorem encoder_text_file_truncation (text : Option String) (fd : List Nat) (mt : String)
    (hfd : fd ≠ []) (hmt : mt ≠ "") (himg : strStartsWith mt "image/" = false)
    (hpdf : mt ≠ "application/pdf") :
    prepare_message_content text (some fd) (some mt)
      = (match text with
          | some t => if t = "" then [] else [ContentPart.textPart t]
          | none => []) ++
        [ContentPart.textPart ("Содержимое файла (" ++ mt ++ "):\n\n"
          ++ takeChars (utf8DecodeIgnoreBytes fd) 4000 ++ "...")] := by
  cases text with
  | none => simp [prepare_message_content, hfd, hmt, himg, hpdf]
  | some t =>
      by_cases ht : t = "" <;>
        simp [prepare_message_content, hfd, hmt, himg, hpdf, ht]

theorem encoder_text_file_truncation_witness :
    ([104, 105] : List Nat) ≠ [] ∧ ("text/csv" : String) ≠ "" ∧
    strStartsWith "text/csv" "image/" = false ∧
    prepare_message_content none (some [104, 105]) (some "text/csv")
      = [ContentPart.textPart "Содержимое файла (text/csv):\n\nhi..."] := by
  refine ⟨by decide, by decide, by decide, ?_⟩
  have h := encoder_text_file_truncation none [104, 105] "text/csv"
    (by decide) (by decide) (by decide) (by decide)
  exact h.trans (by decide)

/-- C7: an inbound document update is rejected with a single message,
without calling the Completion Client, without downloading the file and
without touching the store, when the file exceeds 20 MiB, when no MIME type
resolves, or when the resolved MIME type is neither in the allow-list nor a
`text/*` type. -/
theorem document_reject_no_side_effects (s : Store) (m : DocMsg) (fd : List Nat)
    (outcome : ApiOutcome) (hrej : docRejected m) :
    (document_handler s m fd outcome).store = s ∧
    (document_handler s m fd outcome).apiCalled = false ∧
    (document_handler s m fd outcome).downloadAttempted = false ∧
    (document_handler s m fd outcome).messages.length = 1 := by
  by_cases hsize : m.file_size > 20 * 1024 * 1024
  · simp [document_handler, hsize]
  · rcases hrej with hs | hmime | ⟨mt, hmt, hsup, hpre⟩
    · exact absurd hs hsize
    · simp [document_handler, hsize, hmime]
    · have hmem : mt ∉ SUPPORTED_DOCUMENT_TYPES := by simpa using hsup
      simp [document_handler, hsize, hmt, hsup, hpre, hmem]

/-! ### Chunking lemmas -/

theorem splitChunks_nil : splitChunks [] = [] := by
  rw [splitChunks]
  simp

theorem splitChunks_cons {l : List Char} (hl : l ≠ []) :
    splitChunks l = l.take 4096 :: splitChunks (l.drop 4096) := by
  rw [splitChunks]
  exact dif_neg hl

theorem data_asString (l : List Char) : (List.asString l).data = l := rfl

theorem asString_data (s : String) : List.asString s.data = s := rfl

theorem splitChunks_length_aux :
    ∀ (n : Nat) (l : List Char), l.length ≤ n → l ≠ [] →
      (splitChunks l).length = (l.length + 4095) / 4096 := by
  intro n
  induction n with
  | zero =>
      intro l hle hne
      exact absurd (List.eq_nil_of_length_eq_zero (Nat.le_zero.mp hle)) hne
  | succ n ih =>
      intro l hle hne
      rw [splitChunks_cons hne]
      by_cases hdrop : l.drop 4096 = []
      · have hlen : l.length ≤ 4096 := by
          have hd : (l.drop 4096).length = l.length - 4096 := by simp
          rw [hdrop] at hd
          simp at hd
          omega
        have hpos : 0 < l.length := List.length_pos.mpr hne
        rw [hdrop, splitChunks_nil]
        simp only [List.length_cons, List.length_nil]
        omega
      · have hlt : 4096 < l.length := by
          by_contra hc
          push_neg at hc
          exact hdrop (List.drop_eq_nil_of_le hc)
        have hdl : (l.drop 4096).length ≤ n := by
          simp only [List.length_drop]
          omega
        have hrec := ih (l.drop 4096) hdl hdrop
        simp only [List.length_cons, hrec, List.length_drop]
        omega

theorem splitChunks_flatten_aux :
    ∀ (n : Nat) (l : List Char), l.length ≤ n → (splitChunks l).flatten = l := by
  intro n
  induction n with
  | zero =>
      intro l hle
      have hnil : l = [] := List.eq_nil_of_length_eq_zero (Nat.le_zero.mp hle)
      subst hnil
      simp [splitChunks_nil]
  | succ n ih =>
      intro l hle
      by_cases hne : l = []
      · subst hne
        simp [splitChunks_nil]
      · rw [splitChunks_cons hne]
        have hpos : 0 < l.length := List.length_pos.mpr hne
        have hdl : (l.drop 4096).length ≤ n := by
          simp only [List.length_drop]
          omega
        rw [List.flatten_cons, ih (l.drop 4096) hdl, List.take_append_drop]

theorem splitChunks_getD :
    ∀ (n : Nat) (l : List Char), l.length ≤ n → ∀ (i : Nat),
      (splitChunks l).getD i [] = (l.drop (4096 * i)).take 4096 := by
  intro n
  induction n with
  | zero =>
      intro l hle i
      have hnil : l = [] := List.eq_nil_of_length_eq_zero (Nat.le_zero.mp hle)
      subst hnil
      simp [splitChunks_nil]
  | succ n ih =>
      intro l hle i
      by_cases hne : l = []
      · subst hne
        simp [splitChunks_nil]
      · rw [splitChunks_cons hne]
        cases i with
        | zero => simp
        | succ j =>
            have hpos : 0 < l.length := List.length_pos.mpr hne
            have hdl : (l.drop 4096).length ≤ n := by
              simp only [List.length_drop]
              omega
            rw [List.getD_cons_succ, ih (l.drop 4096) hdl j, List.drop_drop]
            have harith : 4096 + 4096 * j = 4096 * (j + 1) := by ring
            rw [harith]

theorem getD_map_asString (L : List (List Char)) (i : Nat) (hi : i < L.length) :
    (L.map List.asString).getD i "" = List.asString (L.getD i []) := by
  induction L generalizing i with
  | nil => simp at hi
  | cons a L ih =>
      cases i with
      | zero => simp
      | succ j =>
          simp only [List.map_cons, List.getD_cons_succ]
          exact ih j (by simpa using hi)

/-- C5 counterexample: the code relays an empty response as one (empty)
message, while `ceil(len/4096)` is `0` for the empty string, so "sends
exactly ceil(len/4096) messages" fails there. -/
theorem relay_ceil_count_counterexample :
    (sentMessages "").length ≠ (("" : String).length + 4095) / 4096 := by
  decide

/-- C5 amended: for every non-empty response string, the relay step sends
exactly `ceil(len/4096)` messages whose concatenation in send order equals
the response; the chunks are the consecutive 4096-character slices in
order (the final one possibly shorter), so a response of length at most
4096 (including exactly 4096) is one message, and one of length 4097 is
two messages whose second contains exactly one character.  (An empty
response is sent as a single empty message.) -/
theorem relay_chunking_correct (r : String) (hr : r ≠ "") :
    (sentMessages r).length = (r.length + 4095) / 4096 ∧
    ((sentMessages r).map String.data).flatten = r.data ∧
    (∀ i : Nat, i < (sentMessages r).length →
      (sentMessages r).getD i "" = ((r.data.drop (4096 * i)).take 4096).asString) ∧
    (r.length = 4096 → (sentMessages r).length = 1) ∧
    (r.length = 4097 → (sentMessages r).length = 2 ∧
      ((sentMessages r).getD 1 "").length = 1) := by
  have hdata : r.data ≠ [] := fun hd => hr (String.ext (hd.trans rfl))
  have hlen_eq : r.length = r.data.length := rfl
  have hpos : 0 < r.length := by
    rw [hlen_eq]
    exact List.length_pos.mpr hdata
  by_cases hbig : r.length > 4096
  · have hsm : sentMessages r = (splitChunks r.data).map List.asString := by
      simp [sentMessages, hbig]
    have hcount : (sentMessages r).length = (r.length + 4095) / 4096 := by
      rw [hsm, List.length_map,
        splitChunks_length_aux r.data.length r.data le_rfl hdata, ← hlen_eq]
    have hslice : ∀ i : Nat, i < (sentMessages r).length →
        (sentMessages r).getD i "" = ((r.data.drop (4096 * i)).take 4096).asString := by
      intro i hi
      rw [hsm] at hi ⊢
      rw [List.length_map] at hi
      rw [getD_map_asString _ _ hi, splitChunks_getD r.data.length r.data le_rfl i]
    refine ⟨hcount, ?_, hslice, ?_, ?_⟩
    · rw [hsm, List.map_map]
      have hcomp : (String.data ∘ List.asString) = id := by
        funext l
        simp [Function.comp, data_asString]
      rw [hcomp, List.map_id]
      exact splitChunks_flatten_aux r.data.length r.data le_rfl
    · intro h46
      omega
    · intro h47
      have hc2 : (sentMessages r).length = 2 := by
        rw [hcount, h47]
      refine ⟨hc2, ?_⟩
      have h1lt : 1 < (sentMessages r).length := by omega
      rw [hslice 1 h1lt]
      have : (((r.data.drop (4096 * 1)).take 4096).asString).length
          = ((r.data.drop (4096 * 1)).take 4096).length := rfl
      rw [this]
      simp only [List.length_take, List.length_drop]
      rw [hlen_eq] at h47
      omega
  · have hsm : sentMessages r = [r] := by
      simp [sentMessages, hbig]
    have hle : r.data.length ≤ 4096 := by
      rw [← hlen_eq]
      omega
    have hcount : (sentMessages r).length = (r.length + 4095) / 4096 := by
      rw [hsm]
      simp only [List.length_cons, List.length_nil]
      omega
    refine ⟨hcount, ?_, ?_, ?_, ?_⟩
    · rw [hsm]
      simp
    · intro i hi
      rw [hsm] at hi ⊢
      simp only [List.length_cons, List.length_nil] at hi
      have hi0 : i = 0 := by omega
      subst hi0
      simp only [List.getD_cons_zero, Nat.mul_zero, List.drop_zero]
      rw [List.take_of_length_le hle, asString_data]
    · intro _
      rw [hsm]
      rfl
    · intro h47
      omega

theorem relay_chunking_correct_witness :
    ("hi" : String) ≠ "" ∧
    (sentMessages "hi").length = (("hi" : String).length + 4095) / 4096 ∧
    ((sentMessages "hi").map String.data).flatten = ("hi" : String).data ∧
    sentMessages "hi" = ["hi"] :=
  ⟨by decide, (relay_chunking_correct "hi" (by decide)).1,
   (relay_chunking_correct "hi" (by decide)).2.1, by decide⟩

theorem document_reject_no_side_effects_witness :
    docRejected ⟨1, 100, some "application/zip", none, "a.zip", none⟩ ∧
    (document_handler [] ⟨1, 100, some "application/zip", none, "a.zip", none⟩ []
      ApiOutcome.timeout).store = [] ∧
    (document_handler [] ⟨1, 100, some "application/zip", none, "a.zip", none⟩ []
      ApiOutcome.timeout).apiCalled = false := by
  have hrej : docRejected ⟨1, 100, some "application/zip", none, "a.zip", none⟩ :=
    Or.inr (Or.inr ⟨"application/zip", by decide, by decide, by decide⟩)
  exact ⟨hrej,
    (document_reject_no_side_effects [] _ [] ApiOutcome.timeout hrej).1,
    (document_reject_no_side_effects [] _ [] ApiOutcome.timeout hrej).2.1⟩

end Bot
